import Mathlib

/-!
Verification of the data-contract analysis engine of the AI-RadarX
repository (`backend/lib/tradingagents/core/engine/`).

The Python sources are shallowly embedded as Lean definitions:

* Python dicts are modelled as functions `String → Option V` (`PDict V`);
  `d[k] = v` is `pset`, `d.get(k)` is application, `d.update(m)` is
  `pupdate`.  Key-set enumeration (`d.keys()`) is not observable in this
  model; no verified property depends on it.
* Python runtime values are modelled by the inductive `PyVal`
  (`None`, strings, numbers, booleans, dicts).
* `datetime.now()` timestamps (`created_at`, `updated_at`,
  `AccessLogEntry.timestamp`, phase durations) are wall-clock effects and
  are omitted from the embedded state; no verified property depends on
  them.
* Python float arithmetic in confidence scores is modelled with exact
  rationals; the verified properties (membership in `[0,1]`, the constant
  `0.5`) are insensitive to float rounding.
-/

namespace RadarX

/-! ## Python dictionaries as partial maps -/

/-- A Python `dict` with string keys, modelled extensionally as a partial
map from keys to values. -/
def PDict (V : Type) : Type := String → Option V

/-- The empty dict `{}`. -/
def pempty {V : Type} : PDict V := fun _ => none

/-- Dict assignment `d[k] = v`. -/
def pset {V : Type} (d : PDict V) (k : String) (v : V) : PDict V :=
  fun q => if q = k then some v else d q

/-- Dict merge `d.update(m)`: entries of `m` override entries of `d`. -/
def pupdate {V : Type} (d m : PDict V) : PDict V :=
  fun q => match m q with
  | some v => some v
  | none => d q

/-- Python `d.get(k, default)`. -/
def pGetD {V : Type} (d : PDict V) (k : String) (dflt : V) : V :=
  (d k).getD dflt

theorem pset_same {V : Type} (d : PDict V) (k : String) (v : V) :
    pset d k v k = some v := by
  simp [pset]

theorem pset_ne {V : Type} (d : PDict V) {k q : String} (v : V) (h : q ≠ k) :
    pset d k v q = d q := by
  simp [pset, h]

/-! ## Python runtime values -/

/-- A Python runtime value as stored in the analysis context and legacy
state dictionaries. -/
inductive PyVal : Type where
  | vNone : PyVal
  | vStr (s : String) : PyVal
  | vNum (q : ℚ) : PyVal
  | vBool (b : Bool) : PyVal
  | vDict (entries : List (String × PyVal)) : PyVal

/-! ## `data_contract.py`: DataLayer, DataAccess, AgentDataContract -/

/-- The five data layers (`class DataLayer(str, Enum)`). -/
inductive DataLayer : Type where
  | CONTEXT
  | RAW_DATA
  | ANALYSIS_DATA
  | REPORTS
  | DECISIONS
deriving DecidableEq

/-- The string value of each enum member. -/
def DataLayer.value : DataLayer → String
  | .CONTEXT => "context"
  | .RAW_DATA => "raw_data"
  | .ANALYSIS_DATA => "analysis_data"
  | .REPORTS => "reports"
  | .DECISIONS => "decisions"

/-- Embedding of `DataAccess`: the declared access of an agent to one layer.  An empty
`fields` list means whole-layer access. -/
structure DataAccess : Type where
  layer : DataLayer
  fields : List String := []
  required : Bool := true

/-- Embedding of `AgentDataContract`: declared inputs, outputs and dependencies of an
agent.  `depends_on` is kept as a list of IDs (the Python set). -/
structure AgentDataContract : Type where
  agent_id : String
  inputs : List DataAccess := []
  outputs : List DataAccess := []
  depends_on : List String := []
  description : String := ""

/-! ## `analysis_context.py`: AnalysisContext -/

/-- Embedding of `AnalysisContext`: one dict per layer plus the data-lineage map
`"layer.field" → agent_id`.  The `created_at` / `updated_at` wall-clock
timestamps are not modelled. -/
structure AnalysisContext : Type where
  context : PDict PyVal := pempty
  raw_data : PDict PyVal := pempty
  analysis_data : PDict PyVal := pempty
  reports : PDict PyVal := pempty
  decisions : PDict PyVal := pempty
  data_lineage : PDict String := pempty

/-- Embedding of `AnalysisContext._get_layer_data`. -/
def AnalysisContext.layerData (ctx : AnalysisContext) : DataLayer → PDict PyVal
  | .CONTEXT => ctx.context
  | .RAW_DATA => ctx.raw_data
  | .ANALYSIS_DATA => ctx.analysis_data
  | .REPORTS => ctx.reports
  | .DECISIONS => ctx.decisions

/-- Replace the dict of one layer (the in-place mutation of the layer dict
returned by `_get_layer_data`). -/
def AnalysisContext.withLayer (ctx : AnalysisContext) : DataLayer → PDict PyVal → AnalysisContext
  | .CONTEXT, d => { ctx with context := d }
  | .RAW_DATA, d => { ctx with raw_data := d }
  | .ANALYSIS_DATA, d => { ctx with analysis_data := d }
  | .REPORTS, d => { ctx with reports := d }
  | .DECISIONS, d => { ctx with decisions := d }

/-- The lineage key `f"{layer.value}.{field_name}"`. -/
def lineageKey (layer : DataLayer) (field_name : String) : String :=
  layer.value ++ "." ++ field_name

/-- Embedding of `AnalysisContext.get(layer, field_name)` with the default `None`
represented by `Option.none`. -/
def AnalysisContext.get (ctx : AnalysisContext) (layer : DataLayer) (field_name : String) :
    Option PyVal :=
  ctx.layerData layer field_name

/-- Embedding of `AnalysisContext.set(layer, field_name, value, source)`.  The lineage
entry is written only under Python truthiness of `source`, i.e. when
`source` is neither `None` nor the empty string. -/
def AnalysisContext.set (ctx : AnalysisContext) (layer : DataLayer) (field_name : String)
    (value : PyVal) (source : Option String := none) : AnalysisContext :=
  let ctx' := ctx.withLayer layer (pset (ctx.layerData layer) field_name value)
  match source with
  | some s =>
      if s = "" then ctx'
      else { ctx' with data_lineage := pset ctx'.data_lineage (lineageKey layer field_name) s }
  | none => ctx'

/-- Embedding of `AnalysisContext.get_field_source(layer, field_name)`. -/
def AnalysisContext.getFieldSource (ctx : AnalysisContext) (layer : DataLayer)
    (field_name : String) : Option String :=
  ctx.data_lineage (lineageKey layer field_name)

/-! ### Injectivity of the lineage key

The layer enum values contain no dot, so splitting a key at its first dot
recovers the layer string and the field name. -/

/-- Split a character list at its first `'.'`. -/
def splitFirstDot : List Char → List Char × List Char
  | [] => ([], [])
  | c :: cs =>
      if c = '.' then ([], cs)
      else
        let r := splitFirstDot cs
        (c :: r.1, r.2)

theorem splitFirstDot_append (p f : List Char) (hp : '.' ∉ p) :
    splitFirstDot (p ++ '.' :: f) = (p, f) := by
  induction p with
  | nil => simp [splitFirstDot]
  | cons c cs ih =>
      have hc : c ≠ '.' := fun h => hp (by simp [h])
      have hcs : '.' ∉ cs := fun h => hp (List.mem_cons_of_mem _ h)
      simp [splitFirstDot, hc, ih hcs]

theorem lineageKey_data (layer : DataLayer) (f : String) :
    (lineageKey layer f).data = layer.value.data ++ '.' :: f.data := by
  cases layer <;> simp [lineageKey, DataLayer.value, String.data_append]

theorem splitFirstDot_lineageKey (layer : DataLayer) (f : String) :
    splitFirstDot (lineageKey layer f).data = (layer.value.data, f.data) := by
  rw [lineageKey_data]
  apply splitFirstDot_append
  cases layer <;> decide

theorem lineageKey_inj {l l' : DataLayer} {f f' : String}
    (h : lineageKey l f = lineageKey l' f') : l = l' ∧ f = f' := by
  have h2 := congrArg (fun s => splitFirstDot s.data) h
  simp only [splitFirstDot_lineageKey] at h2
  have hl : l.value.data = l'.value.data := congrArg Prod.fst h2
  have hf : f.data = f'.data := congrArg Prod.snd h2
  constructor
  · cases l <;> cases l' <;> first | rfl | exact absurd hl (by decide)
  · cases f; cases f'; exact congrArg String.mk hf

/-! ### Basic lemmas about `AnalysisContext.set` -/

/-- Python truthiness of the optional `source` argument. -/
def truthySrc : Option String → Bool
  | some s => s ≠ ""
  | none => false

theorem layerData_withLayer (ctx : AnalysisContext) (l l' : DataLayer) (d : PDict PyVal) :
    (ctx.withLayer l d).layerData l' = if l' = l then d else ctx.layerData l' := by
  cases l <;> cases l' <;>
    simp [AnalysisContext.withLayer, AnalysisContext.layerData]

theorem data_lineage_withLayer (ctx : AnalysisContext) (l : DataLayer) (d : PDict PyVal) :
    (ctx.withLayer l d).data_lineage = ctx.data_lineage := by
  cases l <;> rfl

/-- The data layers after a `set`: only the targeted layer and field change. -/
theorem layerData_set (ctx : AnalysisContext) (l l' : DataLayer) (f q : String)
    (v : PyVal) (src : Option String) :
    (ctx.set l f v src).layerData l' q =
      if l' = l ∧ q = f then some v else ctx.layerData l' q := by
  have base : (ctx.withLayer l (pset (ctx.layerData l) f v)).layerData l' q =
      if l' = l ∧ q = f then some v else ctx.layerData l' q := by
    rw [layerData_withLayer]
    by_cases hL : l' = l
    · subst hL
      by_cases hq : q = f
      · simp [hq, pset]
      · simp [hq, pset]
    · simp [hL]
  unfold AnalysisContext.set
  cases src with
  | none => exact base
  | some s =>
      by_cases hs : s = ""
      · simpa [hs] using base
      · simpa [hs] using base

/-- The lineage map after a `set`: updated at the lineage key exactly when
`source` is truthy, untouched elsewhere. -/
theorem data_lineage_set (ctx : AnalysisContext) (l : DataLayer) (f q : String)
    (v : PyVal) (src : Option String) :
    (ctx.set l f v src).data_lineage q =
      if q = lineageKey l f ∧ truthySrc src then src else ctx.data_lineage q := by
  unfold AnalysisContext.set
  cases src with
  | none => simp [truthySrc, data_lineage_withLayer]
  | some s =>
      by_cases hs : s = ""
      · simp [hs, truthySrc, data_lineage_withLayer]
      · by_cases hq : q = lineageKey l f
        · simp [hs, hq, truthySrc, pset, data_lineage_withLayer]
        · simp [hs, hq, truthySrc, pset, data_lineage_withLayer]

/-- Value of `get_field_source` after a `set`. -/
theorem getFieldSource_set (ctx : AnalysisContext) (l l' : DataLayer) (f f' : String)
    (v : PyVal) (src : Option String) :
    (ctx.set l f v src).getFieldSource l' f' =
      if l' = l ∧ f' = f ∧ truthySrc src then src
      else ctx.getFieldSource l' f' := by
  unfold AnalysisContext.getFieldSource
  rw [data_lineage_set]
  by_cases hkey : lineageKey l' f' = lineageKey l f
  · obtain ⟨hl, hf⟩ := lineageKey_inj hkey
    by_cases ht : truthySrc src = true
    · simp [hkey, hl, hf, ht]
    · simp [hkey, hl, hf, ht]
  · have : ¬(l' = l ∧ f' = f ∧ truthySrc src = true) := by
      rintro ⟨h1, h2, _⟩
      exact hkey (by rw [h1, h2])
    simp [hkey, this]

/-! ## `data_access_manager.py`: AccessLogEntry, DataAccessManager -/

/-- Embedding of `AccessLogEntry`: one audit record per manager operation.  The
wall-clock `timestamp` string is not modelled. -/
structure AccessLogEntry : Type where
  agent_id : String
  layer : String
  fields : List String
  action : String
  success : Bool := true
  error : Option String := none

/-- The state of a `DataAccessManager`: the shared context plus the
append-only access log. -/
structure DataAccessManager : Type where
  context : AnalysisContext
  access_log : List AccessLogEntry := []

/-- Embedding of `DataAccessManager._log_access`.  When `access.fields` is empty the
Python call logs `list(layer_data.keys())`; key enumeration is not
observable in the extensional dict model, so the entry records the
declared field list.  No verified property reads the `fields` of an entry. -/
def DataAccessManager.logAccess (mgr : DataAccessManager) (agent_id : String)
    (layer : DataLayer) (fields : List String) (action : String)
    (success : Bool := true) (error : Option String := none) : DataAccessManager :=
  { mgr with access_log :=
      mgr.access_log ++ [⟨agent_id, layer.value, fields, action, success, error⟩] }

/-- One iteration of the inner `for field_name in access.fields` loop of
`DataAccessManager.get_data`: copy the stored value if present, assign
`None` (`PyVal.vNone`) if absent but required, otherwise skip. -/
def readStep (layerD : PDict PyVal) (required : Bool) (d : PDict PyVal)
    (f : String) : PDict PyVal :=
  match layerD f with
  | some v => pset d f v
  | none => if required then pset d f PyVal.vNone else d

/-- One iteration of the `for access in contract.inputs` loop of
`DataAccessManager.get_data`: accumulate the requested fields, or merge
the whole layer when `fields` is empty, then log one read entry. -/
def readAccess (agent_id : String) (acc : PDict PyVal × DataAccessManager)
    (access : DataAccess) : PDict PyVal × DataAccessManager :=
  let layerD := acc.2.context.layerData access.layer
  let data' :=
    match access.fields with
    | [] => pupdate acc.1 layerD
    | _ :: _ => access.fields.foldl (readStep layerD access.required) acc.1
  (data', acc.2.logAccess agent_id access.layer access.fields "read")

/-- Embedding of `DataAccessManager.get_data(agent_id, contract)`: the aggregated input
dict together with the manager state after logging. -/
def DataAccessManager.getData (mgr : DataAccessManager) (agent_id : String)
    (contract : AgentDataContract) : PDict PyVal × DataAccessManager :=
  contract.inputs.foldl (readAccess agent_id) (pempty, mgr)

/-- One iteration of the inner `for field_name in access.fields` loop of
`DataAccessManager.set_data`: write the field if it is a key of
`outputs`, recording lineage and one write log entry. -/
def writeField (agent_id : String) (layer : DataLayer) (outputs : PDict PyVal)
    (mgr : DataAccessManager) (field_name : String) : DataAccessManager :=
  match outputs field_name with
  | some v =>
      DataAccessManager.logAccess
        { mgr with context := mgr.context.set layer field_name v (some agent_id) }
        agent_id layer [field_name] "write"
  | none => mgr

/-- Embedding of `DataAccessManager.set_data(agent_id, contract, outputs)`. -/
def DataAccessManager.setData (mgr : DataAccessManager) (agent_id : String)
    (contract : AgentDataContract) (outputs : PDict PyVal) : DataAccessManager :=
  contract.outputs.foldl
    (fun m access => access.fields.foldl (writeField agent_id access.layer outputs) m)
    mgr

theorem logAccess_context (mgr : DataAccessManager) (agent_id : String)
    (layer : DataLayer) (fields : List String) (action : String) :
    (mgr.logAccess agent_id layer fields action).context = mgr.context := rfl

theorem readAccess_context (agent_id : String) (acc : PDict PyVal × DataAccessManager)
    (access : DataAccess) :
    (readAccess agent_id acc access).2.context = acc.2.context := rfl

/-! ### Preservation lemmas for `set_data` -/

/-- A manager transition leaves field `f` untouched: in every layer the entry
at `f` and every lineage entry for `f` is unchanged. -/
def UnchangedAtField (mgr mgr' : DataAccessManager) (f : String) : Prop :=
  ∀ L : DataLayer,
    mgr'.context.layerData L f = mgr.context.layerData L f ∧
    mgr'.context.data_lineage (lineageKey L f) = mgr.context.data_lineage (lineageKey L f)

theorem unchangedAtField_rfl (mgr : DataAccessManager) (f : String) :
    UnchangedAtField mgr mgr f := fun _ => ⟨rfl, rfl⟩

theorem writeField_unchangedAt (agent_id : String) (layer : DataLayer)
    (outputs : PDict PyVal) (mgr : DataAccessManager) (f' f : String)
    (h : f' = f → outputs f' = none) :
    UnchangedAtField mgr (writeField agent_id layer outputs mgr f') f := by
  intro L
  unfold writeField
  cases hout : outputs f' with
  | none => exact ⟨rfl, rfl⟩
  | some v =>
      have hne : f' ≠ f := fun he => by rw [h he] at hout; cases hout
      constructor
      · show (mgr.context.set layer f' v (some agent_id)).layerData L f = _
        rw [layerData_set, if_neg]
        rintro ⟨-, h2⟩
        exact hne h2.symm
      · show (mgr.context.set layer f' v (some agent_id)).data_lineage (lineageKey L f) = _
        rw [data_lineage_set, if_neg]
        rintro ⟨he, -⟩
        exact hne ((lineageKey_inj he).2).symm

theorem foldl_writeField_unchangedAt (agent_id : String) (layer : DataLayer)
    (outputs : PDict PyVal) (fs : List String) (f : String)
    (h : ∀ f' ∈ fs, f' = f → outputs f' = none) :
    ∀ mgr : DataAccessManager,
      UnchangedAtField mgr (fs.foldl (writeField agent_id layer outputs) mgr) f := by
  induction fs with
  | nil => intro mgr; exact unchangedAtField_rfl mgr f
  | cons f' fs ih =>
      intro mgr
      have h1 := writeField_unchangedAt agent_id layer outputs mgr f' f
        (h f' (List.mem_cons_self f' fs))
      have h2 := ih (fun g hg => h g (List.mem_cons_of_mem f' hg))
        (writeField agent_id layer outputs mgr f')
      intro L
      exact ⟨(h2 L).1.trans (h1 L).1, (h2 L).2.trans (h1 L).2⟩

theorem foldl_accesses_unchangedAt (agent_id : String) (outputs : PDict PyVal)
    (accs : List DataAccess) (f : String)
    (h : ∀ a ∈ accs, ∀ f' ∈ a.fields, f' = f → outputs f' = none) :
    ∀ mgr : DataAccessManager,
      UnchangedAtField mgr
        (accs.foldl
          (fun m access => access.fields.foldl (writeField agent_id access.layer outputs) m)
          mgr) f := by
  induction accs with
  | nil => intro mgr; exact unchangedAtField_rfl mgr f
  | cons a rest ih =>
      intro mgr
      have h1 := foldl_writeField_unchangedAt agent_id a.layer outputs a.fields f
        (h a (List.mem_cons_self a rest)) mgr
      have h2 := ih (fun b hb => h b (List.mem_cons_of_mem a hb))
        (a.fields.foldl (writeField agent_id a.layer outputs) mgr)
      intro L
      exact ⟨(h2 L).1.trans (h1 L).1, (h2 L).2.trans (h1 L).2⟩

theorem setData_unchangedAt (mgr : DataAccessManager) (agent_id : String)
    (contract : AgentDataContract) (outputs : PDict PyVal) (f : String)
    (h : ∀ a ∈ contract.outputs, ∀ f' ∈ a.fields, f' = f → outputs f' = none) :
    UnchangedAtField mgr (mgr.setData agent_id contract outputs) f :=
  foldl_accesses_unchangedAt agent_id outputs contract.outputs f h mgr

/-! ## Claim C1: capability-scoped writes -/

/-- Claim C1.  For every agent, contract and outputs map, `set_data` writes a
(layer, field) pair only if some `DataAccess` in `contract.outputs` lists
that field and the field is a key of `outputs`: at any field that is
undeclared (or absent from `outputs`), the data of every layer and every
lineage entry are unchanged. -/
theorem set_data_capability_scoped (mgr : DataAccessManager) (agent_id : String)
    (contract : AgentDataContract) (outputs : PDict PyVal) (f : String)
    (h : (∀ a ∈ contract.outputs, f ∉ a.fields) ∨ outputs f = none) :
    UnchangedAtField mgr (mgr.setData agent_id contract outputs) f := by
  apply setData_unchangedAt
  intro a ha f' hf' he
  subst he
  cases h with
  | inl hnd => exact absurd hf' (hnd a ha)
  | inr hk => exact hk

/-- Concrete fixture for C1: a contract declaring only
`Reports.market_report`, with an undeclared field `extra` in `outputs`. -/
def contractC1 : AgentDataContract :=
  { agent_id := "market_analyst",
    outputs := [{ layer := .REPORTS, fields := ["market_report"] }] }

/-- Concrete outputs dict for C1, containing the undeclared key `extra`. -/
def outputsC1 : PDict PyVal :=
  pset (pset pempty "market_report" (PyVal.vStr "report text")) "extra" (PyVal.vStr "smuggled")

/-- Concrete manager fixture for C1. -/
def mgrC1 : DataAccessManager := { context := {} }

/-- Witness for C1 at a concrete undeclared field. -/
theorem set_data_capability_scoped_witness :
    UnchangedAtField mgrC1 (mgrC1.setData "market_analyst" contractC1 outputsC1) "extra" :=
  set_data_capability_scoped mgrC1 "market_analyst" contractC1 outputsC1 "extra"
    (Or.inl (by
      intro a ha
      simp only [contractC1, List.mem_singleton] at ha
      subst ha
      decide))

/-! ## Claim C10: empty output field lists grant no write access -/

theorem foldl_accesses_empty_fields (agent_id : String) (outputs : PDict PyVal)
    (accs : List DataAccess) (h : ∀ a ∈ accs, a.fields = []) :
    ∀ mgr : DataAccessManager,
      accs.foldl
        (fun m access => access.fields.foldl (writeField agent_id access.layer outputs) m)
        mgr = mgr := by
  induction accs with
  | nil => intro mgr; rfl
  | cons a rest ih =>
      intro mgr
      rw [List.foldl_cons, h a (List.mem_cons_self a rest)]
      exact ih (fun b hb => h b (List.mem_cons_of_mem a hb)) mgr

/-- Claim C10.  An output `DataAccess` with an empty `fields` list grants no
write access: when every declared output access has empty `fields`,
`set_data` is the identity on the manager state, whatever `outputs`
contains.  In contrast, a single input `DataAccess` with empty `fields`
makes `get_data` return the entire layer. -/
theorem empty_fields_write_vs_read (mgr : DataAccessManager) (agent_id : String)
    (contract : AgentDataContract) (outputs : PDict PyVal)
    (h : ∀ a ∈ contract.outputs, a.fields = []) :
    mgr.setData agent_id contract outputs = mgr ∧
    ∀ (L : DataLayer) (req : Bool) (k : String),
      (mgr.getData agent_id
        { agent_id := agent_id, inputs := [{ layer := L, fields := [], required := req }] }).1 k =
        mgr.context.layerData L k := by
  constructor
  · exact foldl_accesses_empty_fields agent_id outputs contract.outputs h mgr
  · intro L req k
    show pupdate pempty (mgr.context.layerData L) k = mgr.context.layerData L k
    unfold pupdate pempty
    cases mgr.context.layerData L k <;> rfl

/-- Concrete fixture for C10: a contract whose only output access has an
empty field list. -/
def contractC10 : AgentDataContract :=
  { agent_id := "agent_a", outputs := [{ layer := .REPORTS, fields := [] }] }

/-- Witness for C10: even with a non-empty outputs dict, `set_data` under
an empty-fields output access changes nothing. -/
theorem empty_fields_write_vs_read_witness :
    mgrC1.setData "agent_a" contractC10 (pset pempty "market_report" (PyVal.vStr "r")) = mgrC1 ∧
    ∀ (L : DataLayer) (req : Bool) (k : String),
      (mgrC1.getData "agent_a"
        { agent_id := "agent_a", inputs := [{ layer := L, fields := [], required := req }] }).1 k =
        mgrC1.context.layerData L k :=
  empty_fields_write_vs_read mgrC1 "agent_a" contractC10
    (pset pempty "market_report" (PyVal.vStr "r"))
    (by
      intro a ha
      simp only [contractC10, List.mem_singleton] at ha
      subst ha
      rfl)

/-! ### Audit-log shape lemmas -/

/-- Number of write log entries `set_data` produces: one per declared
output field that is a key of `outputs`. -/
def writeCount (outputs : PDict PyVal) (accs : List DataAccess) : ℕ :=
  (accs.map (fun a => a.fields.countP (fun f => (outputs f).isSome))).sum

theorem foldl_readAccess_log (agent_id : String) (inputs : List DataAccess) :
    ∀ acc : PDict PyVal × DataAccessManager,
      ∃ new : List AccessLogEntry,
        (inputs.foldl (readAccess agent_id) acc).2.access_log = acc.2.access_log ++ new ∧
        new.length = inputs.length ∧
        ∀ e ∈ new, e.agent_id = agent_id ∧ e.action = "read" ∧
          e.success = true ∧ e.error = none := by
  induction inputs with
  | nil => intro acc; exact ⟨[], by simp⟩
  | cons a rest ih =>
      intro acc
      obtain ⟨new, hlog, hlen, hprops⟩ := ih (readAccess agent_id acc a)
      refine ⟨⟨agent_id, a.layer.value, a.fields, "read", true, none⟩ :: new, ?_, by simp [hlen], ?_⟩
      · rw [List.foldl_cons, hlog]
        show acc.2.access_log ++ [_] ++ new = _
        simp
      · intro e he
        rcases List.mem_cons.mp he with he | he
        · subst he; exact ⟨rfl, rfl, rfl, rfl⟩
        · exact hprops e he

theorem foldl_writeField_log (agent_id : String) (layer : DataLayer)
    (outputs : PDict PyVal) (fs : List String) :
    ∀ mgr : DataAccessManager,
      ∃ new : List AccessLogEntry,
        (fs.foldl (writeField agent_id layer outputs) mgr).access_log =
          mgr.access_log ++ new ∧
        new.length = fs.countP (fun f => (outputs f).isSome) ∧
        ∀ e ∈ new, e.agent_id = agent_id ∧ e.action = "write" ∧
          e.success = true ∧ e.error = none := by
  induction fs with
  | nil => intro mgr; exact ⟨[], by simp [List.countP_nil]⟩
  | cons f rest ih =>
      intro mgr
      obtain ⟨new, hlog, hlen, hprops⟩ := ih (writeField agent_id layer outputs mgr f)
      cases hout : outputs f with
      | none =>
          refine ⟨new, ?_, ?_, hprops⟩
          · rw [List.foldl_cons, hlog]
            unfold writeField
            rw [hout]
          · rw [hlen, List.countP_cons, hout]
            simp
      | some v =>
          refine ⟨⟨agent_id, layer.value, [f], "write", true, none⟩ :: new, ?_, ?_, ?_⟩
          · rw [List.foldl_cons, hlog]
            unfold writeField
            rw [hout]
            show _ ++ [_] ++ new = _
            simp [DataAccessManager.logAccess]
          · rw [List.countP_cons, hout]
            simp [hlen]
          · intro e he
            rcases List.mem_cons.mp he with he | he
            · subst he; exact ⟨rfl, rfl, rfl, rfl⟩
            · exact hprops e he

theorem foldl_accesses_log (agent_id : String) (outputs : PDict PyVal)
    (accs : List DataAccess) :
    ∀ mgr : DataAccessManager,
      ∃ new : List AccessLogEntry,
        (accs.foldl
          (fun m access => access.fields.foldl (writeField agent_id access.layer outputs) m)
          mgr).access_log = mgr.access_log ++ new ∧
        new.length = writeCount outputs accs ∧
        ∀ e ∈ new, e.agent_id = agent_id ∧ e.action = "write" ∧
          e.success = true ∧ e.error = none := by
  induction accs with
  | nil => intro mgr; exact ⟨[], by simp [writeCount]⟩
  | cons a rest ih =>
      intro mgr
      obtain ⟨new1, hlog1, hlen1, hprops1⟩ :=
        foldl_writeField_log agent_id a.layer outputs a.fields mgr
      obtain ⟨new2, hlog2, hlen2, hprops2⟩ :=
        ih (a.fields.foldl (writeField agent_id a.layer outputs) mgr)
      refine ⟨new1 ++ new2, ?_, ?_, ?_⟩
      · rw [List.foldl_cons, hlog2, hlog1, List.append_assoc]
      · rw [List.length_append, hlen1, hlen2]
        simp [writeCount]
      · intro e he
        rcases List.mem_append.mp he with he | he
        · exact hprops1 e he
        · exact hprops2 e he

/-! ## Claim C9: observability of operations in the audit log

The claim as stated is false: a `set_data` call on a contract with
declared output accesses appends no log entry at all when none of the
declared field names is a key of `outputs` — the call completes silently.
-/

/-- Contract fixture for C9: one declared output access. -/
def contractC9 : AgentDataContract :=
  { agent_id := "agent_a", outputs := [{ layer := .REPORTS, fields := ["market_report"] }] }

/-- Manager fixture for C9 with an empty log. -/
def mgrC9 : DataAccessManager := { context := {} }

/-- Claim C9 counterexample: `set_data` on a contract with a declared
(non-empty) output access appends zero `AccessLogEntry` records when the
outputs dict contains none of the declared fields, contradicting the
claim that no `set_data` call on declared accesses of an agent completes
without appending at least one entry. -/
theorem set_data_silent_counterexample :
    contractC9.outputs ≠ [] ∧
    (mgrC9.setData "agent_a" contractC9 pempty).access_log.length = 0 := by
  constructor
  · simp [contractC9]
  · rfl

/-- Claim C9 amended.  Every `get_data` call appends exactly one read
entry per input `DataAccess`, and every `set_data` call appends exactly
one write entry per declared output field that is a key of `outputs`
(hence possibly none); all appended entries have `success = true` and no
error — the manager never records a failed operation because neither
operation can fail. -/
theorem access_log_observability (mgr : DataAccessManager) (agent_id : String)
    (contract : AgentDataContract) (outputs : PDict PyVal) :
    (∃ new : List AccessLogEntry,
      (mgr.getData agent_id contract).2.access_log = mgr.access_log ++ new ∧
      new.length = contract.inputs.length ∧
      ∀ e ∈ new, e.agent_id = agent_id ∧ e.action = "read" ∧
        e.success = true ∧ e.error = none) ∧
    (∃ new : List AccessLogEntry,
      (mgr.setData agent_id contract outputs).access_log = mgr.access_log ++ new ∧
      new.length = writeCount outputs contract.outputs ∧
      ∀ e ∈ new, e.agent_id = agent_id ∧ e.action = "write" ∧
        e.success = true ∧ e.error = none) :=
  ⟨foldl_readAccess_log agent_id contract.inputs (pempty, mgr),
   foldl_accesses_log agent_id outputs contract.outputs mgr⟩

/-! ### Value lemmas for `get_data` -/

/-- The value `get_data` ends up recording for a declared field `f`:
the stored value if present, `None` if absent but required, otherwise the
previous entry of the accumulator (no write). -/
def readFieldResult (layerD : PDict PyVal) (required : Bool) (d : PDict PyVal)
    (f : String) : Option PyVal :=
  match layerD f with
  | some v => some v
  | none => if required then some PyVal.vNone else d f

theorem readStep_at_self (layerD : PDict PyVal) (required : Bool) (d : PDict PyVal)
    (f : String) :
    readStep layerD required d f f = readFieldResult layerD required d f := by
  unfold readStep readFieldResult
  cases layerD f with
  | some v => exact pset_same d f v
  | none =>
      cases required with
      | true => exact pset_same d f PyVal.vNone
      | false => rfl

theorem readStep_at_ne (layerD : PDict PyVal) (required : Bool) (d : PDict PyVal)
    {f f' : String} (h : f ≠ f') :
    readStep layerD required d f' f = d f := by
  unfold readStep
  cases layerD f' with
  | some v => exact pset_ne d v h
  | none =>
      cases required with
      | true => exact pset_ne d PyVal.vNone h
      | false => rfl

theorem readFieldResult_readStep (layerD : PDict PyVal) (required : Bool)
    (d : PDict PyVal) (f f' : String) :
    readFieldResult layerD required (readStep layerD required d f') f =
      readFieldResult layerD required d f := by
  unfold readFieldResult
  cases hl : layerD f with
  | some v => rfl
  | none =>
      cases hr : required with
      | true => rfl
      | false =>
          by_cases hff : f = f'
          · subst hff
            unfold readStep
            rw [hl]
            rfl
          · exact readStep_at_ne layerD false d hff

theorem foldl_read_fields (layerD : PDict PyVal) (required : Bool) (fs : List String) :
    ∀ (d : PDict PyVal) (f : String),
      (fs.foldl (readStep layerD required) d) f =
      if f ∈ fs then readFieldResult layerD required d f else d f := by
  induction fs with
  | nil => intro d f; simp
  | cons f' fs ih =>
      intro d f
      rw [List.foldl_cons, ih]
      by_cases hf : f ∈ fs
      · rw [if_pos hf, if_pos (List.mem_cons_of_mem f' hf),
          readFieldResult_readStep]
      · rw [if_neg hf]
        by_cases hff : f = f'
        · subst hff
          rw [if_pos (List.mem_cons_self f fs)]
          exact readStep_at_self layerD required d f
        · rw [if_neg (by simp [hff, hf]), readStep_at_ne layerD required d hff]

/-- The result keys an input `DataAccess` can contribute to the `get_data`
dict: its declared fields, or (for whole-layer access) the keys present in
its layer. -/
def covers (ctx : AnalysisContext) (access : DataAccess) (f : String) : Prop :=
  if access.fields = [] then (ctx.layerData access.layer f).isSome = true
  else f ∈ access.fields

theorem readAccess_data_empty (agent_id : String) (acc : PDict PyVal × DataAccessManager)
    (access : DataAccess) (hfs : access.fields = []) :
    (readAccess agent_id acc access).1 =
      pupdate acc.1 (acc.2.context.layerData access.layer) := by
  unfold readAccess
  rw [hfs]

theorem readAccess_data_nonempty (agent_id : String) (acc : PDict PyVal × DataAccessManager)
    (access : DataAccess) (hfs : access.fields ≠ []) :
    (readAccess agent_id acc access).1 =
      access.fields.foldl
        (readStep (acc.2.context.layerData access.layer) access.required) acc.1 := by
  unfold readAccess
  cases h : access.fields with
  | nil => exact absurd h hfs
  | cons g gs => rfl

theorem readAccess_uncovered (agent_id : String) (acc : PDict PyVal × DataAccessManager)
    (access : DataAccess) (f : String) (h : ¬ covers acc.2.context access f) :
    (readAccess agent_id acc access).1 f = acc.1 f := by
  unfold covers at h
  by_cases hfs : access.fields = []
  · rw [if_pos hfs] at h
    rw [readAccess_data_empty agent_id acc access hfs]
    unfold pupdate
    cases hl : acc.2.context.layerData access.layer f with
    | none => rfl
    | some v => exact absurd (by rw [hl]; rfl) h
  · rw [if_neg hfs] at h
    rw [readAccess_data_nonempty agent_id acc access hfs, foldl_read_fields, if_neg h]

theorem foldl_readAccess_context (agent_id : String) (inputs : List DataAccess) :
    ∀ acc : PDict PyVal × DataAccessManager,
      (inputs.foldl (readAccess agent_id) acc).2.context = acc.2.context := by
  induction inputs with
  | nil => intro acc; rfl
  | cons a rest ih =>
      intro acc
      rw [List.foldl_cons, ih (readAccess agent_id acc a), readAccess_context]

theorem foldl_readAccess_uncovered (agent_id : String) (inputs : List DataAccess)
    (f : String) :
    ∀ acc : PDict PyVal × DataAccessManager,
      (∀ b ∈ inputs, ¬ covers acc.2.context b f) →
      (inputs.foldl (readAccess agent_id) acc).1 f = acc.1 f := by
  induction inputs with
  | nil => intro acc _; rfl
  | cons a rest ih =>
      intro acc h
      rw [List.foldl_cons]
      have hctx : (readAccess agent_id acc a).2.context = acc.2.context :=
        readAccess_context agent_id acc a
      rw [ih (readAccess agent_id acc a)
        (fun b hb => by rw [hctx]; exact h b (List.mem_cons_of_mem a hb))]
      exact readAccess_uncovered agent_id acc a f (h a (List.mem_cons_self a rest))

/-- The per-access faithfulness property of a `get_data` result dict
(the claimed reading of `get_data`): declared present fields map to their
stored values, declared absent required fields map to `None`, and a
whole-layer access contributes every stored entry of its layer. -/
def ReadFaithfulAt (ctx : AnalysisContext) (data : PDict PyVal) (access : DataAccess) : Prop :=
  (∀ f ∈ access.fields,
    (∀ v, ctx.layerData access.layer f = some v → data f = some v) ∧
    (ctx.layerData access.layer f = none → access.required = true →
      data f = some PyVal.vNone)) ∧
  (access.fields = [] → ∀ k v,
    ctx.layerData access.layer k = some v → data k = some v)

theorem foldl_readAccess_faithful (agent_id : String) (inputs : List DataAccess) :
    ∀ acc : PDict PyVal × DataAccessManager,
      List.Pairwise
        (fun a b => ∀ f, covers acc.2.context a f → ¬ covers acc.2.context b f) inputs →
      ∀ a ∈ inputs,
        ReadFaithfulAt acc.2.context (inputs.foldl (readAccess agent_id) acc).1 a := by
  induction inputs with
  | nil => intro acc _ a ha; cases ha
  | cons a rest ih =>
      intro acc hpw b hb
      obtain ⟨hd, htl⟩ := List.pairwise_cons.mp hpw
      have hctx : (readAccess agent_id acc a).2.context = acc.2.context :=
        readAccess_context agent_id acc a
      rcases List.mem_cons.mp hb with hb | hb
      · subst hb
        rw [List.foldl_cons]
        have hrest : ∀ f, covers acc.2.context b f →
            (rest.foldl (readAccess agent_id) (readAccess agent_id acc b)).1 f =
              (readAccess agent_id acc b).1 f := by
          intro f hcov
          apply foldl_readAccess_uncovered
          intro c hc
          rw [hctx]
          exact hd c hc f hcov
        constructor
        · intro f hf
          have hne : b.fields ≠ [] := by
            intro h0
            rw [h0] at hf
            cases hf
          have hcov : covers acc.2.context b f := by
            unfold covers
            rw [if_neg hne]
            exact hf
          rw [hrest f hcov,
            readAccess_data_nonempty agent_id acc b hne, foldl_read_fields, if_pos hf]
          constructor
          · intro v hv
            unfold readFieldResult
            rw [hv]
          · intro hnone hreq
            unfold readFieldResult
            rw [hnone, hreq]
            rfl
        · intro hfs k v hk
          have hcov : covers acc.2.context b k := by
            unfold covers
            rw [if_pos hfs, hk]
            rfl
          rw [hrest k hcov, readAccess_data_empty agent_id acc b hfs]
          unfold pupdate
          rw [hk]
      · rw [List.foldl_cons]
        have := ih (readAccess agent_id acc a)
          (by
            rw [hctx]
            exact htl) b hb
        rw [hctx] at this
        exact this

/-! ## Claim C6: `get_data` returns the declared data

The claim as stated is false on contracts whose input accesses overlap:
a later access can overwrite a field fetched by an earlier one (the
result is a single flat dict), so a declared field present in its layer
need not map to its stored value. -/

/-- The per-contract faithfulness property claimed of `get_data`. -/
def GetDataFaithful (mgr : DataAccessManager) (agent_id : String)
    (contract : AgentDataContract) : Prop :=
  ∀ a ∈ contract.inputs, ReadFaithfulAt mgr.context (mgr.getData agent_id contract).1 a

/-- Context fixture for the C6 counterexample: `reports.f` holds `"a"`,
`decisions` is empty. -/
def ctxC6 : AnalysisContext := { reports := pset pempty "f" (PyVal.vStr "a") }

/-- Manager fixture for the C6 counterexample. -/
def mgrC6 : DataAccessManager := { context := ctxC6 }

/-- Contract fixture for the C6 counterexample: two input accesses that
both declare the field name `f`. -/
def contractC6 : AgentDataContract :=
  { agent_id := "agent_a",
    inputs := [{ layer := .REPORTS, fields := ["f"] },
               { layer := .DECISIONS, fields := ["f"] }] }

/-- Claim C6 counterexample: with overlapping input accesses, the declared
field `f` is present in the Reports layer with value `"a"`, yet
`get_data` returns `None` for it (the second, required access overwrote
it), so the claimed faithfulness property fails. -/
theorem get_data_overlap_counterexample :
    ¬ GetDataFaithful mgrC6 "agent_a" contractC6 := by
  intro h
  have h1 := (h { layer := .REPORTS, fields := ["f"] } (by simp [contractC6])).1 "f"
    (by simp)
  have h2 := h1.1 (PyVal.vStr "a") rfl
  have h3 : (mgrC6.getData "agent_a" contractC6).1 "f" = some PyVal.vNone := rfl
  rw [h3] at h2
  exact PyVal.noConfusion (Option.some.inj h2)

/-- Claim C6 amended.  The operation `get_data` never fails, and provided no two input
accesses cover the same result key (i.e. no field name is declared by two
accesses nor also supplied by a whole-layer access — later accesses
overwrite earlier ones when they do), it returns exactly the declared
data: each declared field present in its layer maps to its stored value,
each declared field absent from a required access maps to `None`, a
whole-layer access contributes every stored entry of its layer, and each
call appends exactly one read `AccessLogEntry` per input `DataAccess`. -/
theorem get_data_contract_faithful (mgr : DataAccessManager) (agent_id : String)
    (contract : AgentDataContract)
    (hdisj : List.Pairwise
      (fun a b => ∀ f, covers mgr.context a f → ¬ covers mgr.context b f)
      contract.inputs) :
    GetDataFaithful mgr agent_id contract ∧
    ∃ new : List AccessLogEntry,
      (mgr.getData agent_id contract).2.access_log = mgr.access_log ++ new ∧
      new.length = contract.inputs.length ∧
      ∀ e ∈ new, e.agent_id = agent_id ∧ e.action = "read" ∧
        e.success = true ∧ e.error = none :=
  ⟨fun a ha => foldl_readAccess_faithful agent_id contract.inputs (pempty, mgr) hdisj a ha,
   foldl_readAccess_log agent_id contract.inputs (pempty, mgr)⟩

/-- Context fixture for the C6 witness. -/
def ctxC6w : AnalysisContext :=
  { context := pset pempty "ticker" (PyVal.vStr "000001"),
    reports := pset pempty "market_report" (PyVal.vStr "m") }

/-- Manager fixture for the C6 witness. -/
def mgrC6w : DataAccessManager := { context := ctxC6w }

/-- Contract fixture for the C6 witness: disjoint accesses, one declared
field absent (required), one whole-layer access. -/
def contractC6w : AgentDataContract :=
  { agent_id := "trader",
    inputs := [{ layer := .CONTEXT, fields := ["ticker", "missing_field"] },
               { layer := .REPORTS, fields := [] }] }

/-- Witness for the amended C6 at a concrete disjoint contract. -/
theorem get_data_contract_faithful_witness :
    GetDataFaithful mgrC6w "trader" contractC6w ∧
    ∃ new : List AccessLogEntry,
      (mgrC6w.getData "trader" contractC6w).2.access_log = mgrC6w.access_log ++ new ∧
      new.length = contractC6w.inputs.length ∧
      ∀ e ∈ new, e.agent_id = "trader" ∧ e.action = "read" ∧
        e.success = true ∧ e.error = none := by
  apply get_data_contract_faithful mgrC6w "trader" contractC6w
  refine List.Pairwise.cons ?_ (List.pairwise_singleton _ _)
  intro b hb f hcov
  simp only [contractC6w, List.mem_singleton] at hb
  subst hb
  unfold covers at hcov ⊢
  rw [if_neg (by simp)] at hcov
  rw [if_pos rfl]
  simp only [List.mem_cons, List.not_mem_nil, or_false] at hcov
  rcases hcov with h | h <;> subst h <;>
    simp [ctxC6w, mgrC6w, AnalysisContext.layerData, pset, pempty]

/-! ## Claim C5: lineage reflects the most recent sourced write

The claim as stated is false: `AnalysisContext.set` guards the lineage
update with Python truthiness (`if source:`), so a call that supplies the
empty string as `source` stores the value but does not update lineage,
while the claimed reading ("the most recent set call that supplied a
source") expects it to. -/

/-- One recorded `AnalysisContext.set(layer, field, value, source)` call. -/
structure SetOp : Type where
  layer : DataLayer
  fieldName : String
  value : PyVal
  source : Option String

/-- Apply a sequence of `set` calls to a context. -/
def applyOps (ctx : AnalysisContext) (ops : List SetOp) : AnalysisContext :=
  ops.foldl (fun c op => c.set op.layer op.fieldName op.value op.source) ctx

/-- The claimed reading of lineage: the `source` of the most recent call
on the pair that supplied any (non-`None`) source. -/
def lastSuppliedSource (init : Option String) (ops : List SetOp)
    (layer : DataLayer) (f : String) : Option String :=
  ops.foldl (fun cur op =>
    if op.layer = layer ∧ op.fieldName = f ∧ op.source.isSome = true
    then op.source else cur) init

/-- The coded behaviour: the `source` of the most recent call on the
pair that supplied a truthy (non-`None`, non-empty) source. -/
def lastTruthySource (init : Option String) (ops : List SetOp)
    (layer : DataLayer) (f : String) : Option String :=
  ops.foldl (fun cur op =>
    if op.layer = layer ∧ op.fieldName = f ∧ truthySrc op.source = true
    then op.source else cur) init

/-- Claim C5 counterexample: a single `set` call with `source = ""` on a
fresh context: the claimed reading says `get_field_source` should return
`""` (the most recent supplied source), but the code leaves lineage
untouched and returns `None`. -/
theorem get_field_source_empty_source_counterexample :
    (applyOps {} [⟨.CONTEXT, "f", PyVal.vStr "x", some ""⟩]).getFieldSource .CONTEXT "f" =
      none ∧
    lastSuppliedSource none [⟨.CONTEXT, "f", PyVal.vStr "x", some ""⟩] .CONTEXT "f" =
      some "" ∧
    (none : Option String) ≠ some "" := by
  refine ⟨rfl, rfl, ?_⟩
  intro h
  cases h

/-- Claim C5 amended.  For every sequence of `set` calls,
`get_field_source(layer, f)` returns the `source` of the most recent call
on that pair that supplied a *non-empty* source; calls that omit `source`
or pass `""` leave the lineage entry unchanged. -/
theorem get_field_source_last_sourced (ctx : AnalysisContext) (ops : List SetOp)
    (layer : DataLayer) (f : String) :
    (applyOps ctx ops).getFieldSource layer f =
      lastTruthySource (ctx.getFieldSource layer f) ops layer f := by
  induction ops generalizing ctx with
  | nil => rfl
  | cons op rest ih =>
      show (applyOps (ctx.set op.layer op.fieldName op.value op.source) rest).getFieldSource
          layer f = _
      rw [ih]
      unfold lastTruthySource
      rw [List.foldl_cons]
      congr 1
      rw [getFieldSource_set]
      by_cases h : op.layer = layer ∧ op.fieldName = f
      · obtain ⟨ha, hb⟩ := h
        simp [ha, hb]
      · rw [if_neg fun hc => h ⟨hc.1.symm, hc.2.1.symm⟩,
          if_neg fun hc => h ⟨hc.1, hc.2.1⟩]

/-! ## Claim C4: legacy flat-state round trip -/

/-- A Python dict literal with (distinct) listed keys. -/
def pofList {V : Type} (entries : List (String × V)) : PDict V :=
  fun k => (entries.find? (fun p => p.1 = k)).map (fun p => p.2)

/-- Embedding of `AnalysisContext.to_legacy_state`. -/
def AnalysisContext.toLegacyState (ctx : AnalysisContext) : PDict PyVal :=
  pofList
    [("company_of_interest", pGetD ctx.context "ticker" (PyVal.vStr "")),
     ("trade_date", pGetD ctx.context "trade_date" (PyVal.vStr "")),
     ("market_report", pGetD ctx.reports "market_report" (PyVal.vStr "")),
     ("sentiment_report", pGetD ctx.reports "sentiment_report" (PyVal.vStr "")),
     ("news_report", pGetD ctx.reports "news_report" (PyVal.vStr "")),
     ("fundamentals_report", pGetD ctx.reports "fundamentals_report" (PyVal.vStr "")),
     ("sector_report", pGetD ctx.reports "sector_report" (PyVal.vStr "")),
     ("index_report", pGetD ctx.reports "index_report" (PyVal.vStr "")),
     ("investment_debate_state", pGetD ctx.decisions "investment_debate" (PyVal.vDict [])),
     ("investment_plan", pGetD ctx.decisions "investment_plan" (PyVal.vStr "")),
     ("trader_investment_plan", pGetD ctx.decisions "trade_signal" (PyVal.vStr "")),
     ("risk_debate_state", pGetD ctx.decisions "risk_assessment" (PyVal.vDict [])),
     ("final_trade_decision", pGetD ctx.decisions "final_decision" (PyVal.vStr ""))]

/-- Embedding of `AnalysisContext.from_legacy_state`. -/
def AnalysisContext.fromLegacyState (state : PDict PyVal) : AnalysisContext :=
  { context := pofList
      [("ticker", pGetD state "company_of_interest" (PyVal.vStr "")),
       ("trade_date", pGetD state "trade_date" (PyVal.vStr ""))],
    reports := pofList
      [("market_report", pGetD state "market_report" (PyVal.vStr "")),
       ("sentiment_report", pGetD state "sentiment_report" (PyVal.vStr "")),
       ("news_report", pGetD state "news_report" (PyVal.vStr "")),
       ("fundamentals_report", pGetD state "fundamentals_report" (PyVal.vStr "")),
       ("sector_report", pGetD state "sector_report" (PyVal.vStr "")),
       ("index_report", pGetD state "index_report" (PyVal.vStr ""))],
    decisions := pofList
      [("investment_debate", pGetD state "investment_debate_state" (PyVal.vDict [])),
       ("investment_plan", pGetD state "investment_plan" (PyVal.vStr "")),
       ("trade_signal", pGetD state "trader_investment_plan" (PyVal.vStr "")),
       ("risk_assessment", pGetD state "risk_debate_state" (PyVal.vDict [])),
       ("final_decision", pGetD state "final_trade_decision" (PyVal.vStr ""))] }

/-- The eleven report/decision fields the conversion declares. -/
def legacyRoundTripFields : List String :=
  ["market_report", "sentiment_report", "news_report", "fundamentals_report",
   "sector_report", "index_report", "investment_debate_state", "investment_plan",
   "trader_investment_plan", "risk_debate_state", "final_trade_decision"]

/-- Claim C4.  For every flat legacy state `S` and every key `k` among the
eleven declared conversion fields that is present in `S`,
`from_legacy_state(S).to_legacy_state()` maps `k` to the same value. -/
theorem legacy_state_round_trip (S : PDict PyVal) (k : String) (v : PyVal)
    (hk : k ∈ legacyRoundTripFields) (hv : S k = some v) :
    (AnalysisContext.fromLegacyState S).toLegacyState k = some v := by
  have hmem : k = "market_report" ∨ k = "sentiment_report" ∨ k = "news_report" ∨
      k = "fundamentals_report" ∨ k = "sector_report" ∨ k = "index_report" ∨
      k = "investment_debate_state" ∨ k = "investment_plan" ∨
      k = "trader_investment_plan" ∨ k = "risk_debate_state" ∨
      k = "final_trade_decision" := by
    simpa [legacyRoundTripFields] using hk
  rcases hmem with h | h | h | h | h | h | h | h | h | h | h <;> subst h <;>
    simp [AnalysisContext.toLegacyState, AnalysisContext.fromLegacyState, pofList,
      pGetD, List.find?, hv]

/-- Witness for C4 at a concrete legacy state. -/
theorem legacy_state_round_trip_witness :
    "investment_plan" ∈ legacyRoundTripFields ∧
    (AnalysisContext.fromLegacyState
        (pset pempty "investment_plan" (PyVal.vStr "plan text"))).toLegacyState
      "investment_plan" = some (PyVal.vStr "plan text") :=
  ⟨by simp [legacyRoundTripFields],
   legacy_state_round_trip (pset pempty "investment_plan" (PyVal.vStr "plan text"))
     "investment_plan" (PyVal.vStr "plan text") (by simp [legacyRoundTripFields]) rfl⟩

/-! ## `data_schema.py` and `contract_validator.py` -/

/-- The hardcoded core field names per layer
(`DynamicDataSchema._init_core_fields`). -/
def coreFieldNames : DataLayer → List String
  | .CONTEXT => ["ticker", "trade_date", "market_type", "company_name", "currency"]
  | .RAW_DATA => []
  | .ANALYSIS_DATA => []
  | .REPORTS => []
  | .DECISIONS => ["investment_debate", "investment_plan", "trade_signal",
      "risk_assessment", "final_decision"]

/-- Embedding of `DynamicDataSchema.is_core_field`: membership in the hardcoded core
table only (agent and config registrations never affect it). -/
def isCoreField (layer : DataLayer) (f : String) : Prop := f ∈ coreFieldNames layer

instance (layer : DataLayer) (f : String) : Decidable (isCoreField layer f) := by
  unfold isCoreField
  infer_instance

/-- The dynamic part of `DynamicDataSchema`: agent-registered and
config-extension field names per layer. -/
structure DynamicDataSchema : Type where
  agentFields : DataLayer → List String := fun _ => []
  extendFields : DataLayer → List String := fun _ => []

/-- Embedding of `DynamicDataSchema.is_valid_field`: membership in the merged field
name set (core, agent and config sources). -/
def DynamicDataSchema.isValidField (s : DynamicDataSchema) (layer : DataLayer)
    (f : String) : Prop :=
  f ∈ coreFieldNames layer ++ s.agentFields layer ++ s.extendFields layer

instance (s : DynamicDataSchema) (layer : DataLayer) (f : String) :
    Decidable (s.isValidField layer f) := by
  unfold DynamicDataSchema.isValidField
  infer_instance

/-- Embedding of `ValidationError`. -/
structure ValidationError : Type where
  agent_id : String
  error_type : String
  message : String
  field_name : Option String := none
  layer : Option DataLayer := none

/-- Embedding of `ValidationResult`: `is_valid` is flipped to false by the first
`add_error`, i.e. it holds exactly when `errors` is empty. -/
structure ValidationResult : Type where
  is_valid : Bool
  errors : List ValidationError := []
  warnings : List String := []

/-- Embedding of `ContractValidator._validate_inputs` (run when `strict_input_check`):
one `invalid_input` error per declared input field missing from the
schema; whole-layer accesses are skipped. -/
def validateInputsErrors (schema : DynamicDataSchema) (c : AgentDataContract) :
    List ValidationError :=
  c.inputs.flatMap (fun access =>
    if access.fields = [] then []
    else access.fields.filterMap (fun f =>
      if schema.isValidField access.layer f then none
      else some { agent_id := c.agent_id, error_type := "invalid_input",
                  message := "输入字段无效: " ++ access.layer.value ++ "." ++ f,
                  field_name := some f, layer := some access.layer }))

/-- Embedding of `ContractValidator._validate_outputs`: a `core_conflict` error for
each declared output field that is a core field of a layer other than
`DECISIONS`. -/
def validateOutputsErrors (c : AgentDataContract) : List ValidationError :=
  c.outputs.flatMap (fun access =>
    access.fields.filterMap (fun f =>
      if isCoreField access.layer f then
        if access.layer = DataLayer.DECISIONS then none
        else some { agent_id := c.agent_id, error_type := "core_conflict",
                    message := "不能覆盖核心字段: " ++ access.layer.value ++ "." ++ f,
                    field_name := some f, layer := some access.layer }
      else none))

/-- Embedding of `ContractValidator._validate_dependencies` (run when
`check_dependencies`): one `missing_dependency` error per dependency not
previously registered. -/
def validateDependenciesErrors (registered : List String) (c : AgentDataContract) :
    List ValidationError :=
  c.depends_on.filterMap (fun dep =>
    if dep ∈ registered then none
    else some { agent_id := c.agent_id, error_type := "missing_dependency",
                message := "依赖的 Agent 未注册: " ++ dep })

/-- Embedding of `ContractValidator.validate_contract`. -/
def validateContract (schema : DynamicDataSchema) (registered : List String)
    (c : AgentDataContract) (check_dependencies strict_input_check : Bool) :
    ValidationResult :=
  let errs :=
    (if strict_input_check then validateInputsErrors schema c else []) ++
    validateOutputsErrors c ++
    (if check_dependencies then validateDependenciesErrors registered c else [])
  { is_valid := errs.isEmpty, errors := errs }

theorem mem_validateInputsErrors_type (schema : DynamicDataSchema)
    (c : AgentDataContract) (e : ValidationError)
    (he : e ∈ validateInputsErrors schema c) : e.error_type = "invalid_input" := by
  unfold validateInputsErrors at he
  obtain ⟨a, _, he⟩ := List.mem_flatMap.mp he
  by_cases hfs : a.fields = []
  · rw [if_pos hfs] at he
    cases he
  · rw [if_neg hfs] at he
    obtain ⟨f, _, hf⟩ := List.mem_filterMap.mp he
    by_cases hv : schema.isValidField a.layer f
    · rw [if_pos hv] at hf
      cases hf
    · rw [if_neg hv] at hf
      cases hf
      rfl

theorem mem_validateDependenciesErrors_type (registered : List String)
    (c : AgentDataContract) (e : ValidationError)
    (he : e ∈ validateDependenciesErrors registered c) :
    e.error_type = "missing_dependency" := by
  unfold validateDependenciesErrors at he
  obtain ⟨dep, _, hdep⟩ := List.mem_filterMap.mp he
  by_cases hr : dep ∈ registered
  · rw [if_pos hr] at hdep
    cases hdep
  · rw [if_neg hr] at hdep
    cases hdep
    rfl

theorem mem_validateOutputsErrors_iff (c : AgentDataContract) (L : DataLayer)
    (f : String) :
    (∃ e ∈ validateOutputsErrors c, e.error_type = "core_conflict" ∧
      e.layer = some L ∧ e.field_name = some f) ↔
    (∃ a ∈ c.outputs, a.layer = L ∧ f ∈ a.fields ∧ isCoreField L f ∧
      L ≠ DataLayer.DECISIONS) := by
  constructor
  · rintro ⟨e, he, -, hlayer, hfield⟩
    unfold validateOutputsErrors at he
    obtain ⟨a, ha, he⟩ := List.mem_flatMap.mp he
    obtain ⟨g, hg, hge⟩ := List.mem_filterMap.mp he
    by_cases hcore : isCoreField a.layer g
    · rw [if_pos hcore] at hge
      by_cases hdec : a.layer = DataLayer.DECISIONS
      · rw [if_pos hdec] at hge
        cases hge
      · rw [if_neg hdec] at hge
        cases hge
        simp only at hlayer hfield
        cases Option.some.inj hlayer
        cases Option.some.inj hfield
        exact ⟨a, ha, rfl, hg, hcore, hdec⟩
    · rw [if_neg hcore] at hge
      cases hge
  · rintro ⟨a, ha, hl, hf, hcore, hdec⟩
    subst hl
    refine ⟨{ agent_id := c.agent_id, error_type := "core_conflict",
              message := "不能覆盖核心字段: " ++ a.layer.value ++ "." ++ f,
              field_name := some f, layer := some a.layer }, ?_, rfl, rfl, rfl⟩
    unfold validateOutputsErrors
    refine List.mem_flatMap.mpr ⟨a, ha, List.mem_filterMap.mpr ⟨f, hf, ?_⟩⟩
    rw [if_pos hcore, if_neg hdec]

/-- Contract fixture for C3: core Decisions field declared as output. -/
def contractC3good : AgentDataContract :=
  { agent_id := "risk_manager",
    outputs := [{ layer := .DECISIONS, fields := ["final_decision"] }] }

/-- Contract fixture for C3: core Context field declared as output. -/
def contractC3bad : AgentDataContract :=
  { agent_id := "rogue_agent",
    outputs := [{ layer := .CONTEXT, fields := ["ticker"] }] }

/-- Claim C3.  The checker `validate_contract` reports a `core_conflict` error for a
declared output field exactly when the field is a core field of its layer
and the layer is not `DECISIONS` (under any schema, registration state
and flag combination); concretely, declaring the core Decisions field
`final_decision` yields no error at all, while declaring the core Context
field `ticker` yields exactly one error, a `core_conflict` on `ticker`. -/
theorem validate_contract_core_conflict :
    (∀ (schema : DynamicDataSchema) (registered : List String)
        (c : AgentDataContract) (cd si : Bool) (L : DataLayer) (f : String),
      (∃ e ∈ (validateContract schema registered c cd si).errors,
        e.error_type = "core_conflict" ∧ e.layer = some L ∧ e.field_name = some f) ↔
      (∃ a ∈ c.outputs, a.layer = L ∧ f ∈ a.fields ∧ isCoreField L f ∧
        L ≠ DataLayer.DECISIONS)) ∧
    (validateContract {} [] contractC3good false false).errors = [] ∧
    (validateContract {} [] contractC3bad false false).errors.map
      (fun e => (e.error_type, e.field_name)) = [("core_conflict", some "ticker")] := by
  refine ⟨?_, rfl, rfl⟩
  intro schema registered c cd si L f
  rw [← mem_validateOutputsErrors_iff c L f]
  constructor
  · rintro ⟨e, he, htype, hrest⟩
    show ∃ e ∈ validateOutputsErrors c, _
    rcases List.mem_append.mp he with he | he
    · rcases List.mem_append.mp he with he | he
      · rcases si with _ | _
        · cases he
        · have := mem_validateInputsErrors_type schema c e he
          rw [htype] at this
          exact absurd this (by decide)
      · exact ⟨e, he, htype, hrest⟩
    · rcases cd with _ | _
      · cases he
      · have := mem_validateDependenciesErrors_type registered c e he
        rw [htype] at this
        exact absurd this (by decide)
  · rintro ⟨e, he, hprops⟩
    exact ⟨e, List.mem_append.mpr (Or.inl (List.mem_append.mpr (Or.inr he))), hprops⟩

/-! ## Claim C7: market-type inference (`DataCollectionPhase._detect_market_type`)

The claim as stated is false at the empty ticker: the leading
`if not ticker: return "cn"` guard makes the empty string map to `"cn"`,
while the claimed rules classify it `"us"`. -/

/-- Python `str.upper` (character-wise, modelled on the char list). -/
def strUpper (s : String) : String := String.mk (s.data.map Char.toUpper)

/-- Python `str.lower` (character-wise, modelled on the char list). -/
def strLower (s : String) : String := String.mk (s.data.map Char.toLower)

/-- Python `str.endswith`, modelled on the char lists. -/
def strEndsWith (s suffix : String) : Bool := suffix.data.isSuffixOf s.data

/-- Python `str.isdigit` (ASCII digits; the tickers of this repository are
ASCII): non-empty and all digits. -/
def pyIsDigit (s : String) : Bool := !s.data.isEmpty && s.data.all Char.isDigit

/-- Embedding of `DataCollectionPhase._detect_market_type`. -/
def detect_market_type (ticker : String) : String :=
  if ticker = "" then "cn"
  else if strEndsWith (strUpper ticker) ".SZ" ∨ strEndsWith (strUpper ticker) ".SH" ∨
      strEndsWith (strUpper ticker) ".BJ" then "cn"
  else if pyIsDigit ticker = true ∧ ticker.data.length = 6 then "cn"
  else if strEndsWith (strUpper ticker) ".HK" then "hk"
  else "us"

/-- Market-type inference as the claim states it: `"cn"` when the ticker
ends case-insensitively in `.SZ`/`.SH`/`.BJ` or is a bare 6-digit digit
string, `"hk"` when it ends in `.HK`, and `"us"` for every other ticker. -/
def specMarketType (ticker : String) : String :=
  if strEndsWith (strUpper ticker) ".SZ" ∨ strEndsWith (strUpper ticker) ".SH" ∨
      strEndsWith (strUpper ticker) ".BJ" ∨
      (pyIsDigit ticker = true ∧ ticker.data.length = 6)
  then "cn"
  else if strEndsWith (strUpper ticker) ".HK" then "hk"
  else "us"

/-- Claim C7 counterexample: at the empty ticker the code returns `"cn"`
(the falsy-ticker guard) whereas the claimed rules give `"us"`. -/
theorem detect_market_type_empty_counterexample :
    detect_market_type "" = "cn" ∧ specMarketType "" = "us" ∧
    detect_market_type "" ≠ specMarketType "" := by
  refine ⟨by decide, by decide, by decide⟩

/-- Claim C7 amended.  For every non-empty ticker the coded inference
agrees with the claimed rules (suffixes `.SZ`/`.SH`/`.BJ` case-insensitive
or bare 6-digit string → `"cn"`, suffix `.HK` → `"hk"`, else `"us"`);
the empty ticker is additionally mapped to `"cn"` by the falsy guard. -/
theorem detect_market_type_spec (ticker : String) (h : ticker ≠ "") :
    detect_market_type ticker = specMarketType ticker := by
  unfold detect_market_type specMarketType
  rw [if_neg h]
  by_cases hsfx : strEndsWith (strUpper ticker) ".SZ" = true ∨
      strEndsWith (strUpper ticker) ".SH" = true ∨
      strEndsWith (strUpper ticker) ".BJ" = true
  · have hyes : strEndsWith (strUpper ticker) ".SZ" = true ∨
        strEndsWith (strUpper ticker) ".SH" = true ∨
        strEndsWith (strUpper ticker) ".BJ" = true ∨
        (pyIsDigit ticker = true ∧ ticker.data.length = 6) := by tauto
    rw [if_pos hsfx, if_pos hyes]
  · by_cases hdig : pyIsDigit ticker = true ∧ ticker.data.length = 6
    · have hyes : strEndsWith (strUpper ticker) ".SZ" = true ∨
          strEndsWith (strUpper ticker) ".SH" = true ∨
          strEndsWith (strUpper ticker) ".BJ" = true ∨
          (pyIsDigit ticker = true ∧ ticker.data.length = 6) := by tauto
      rw [if_neg hsfx, if_pos hdig, if_pos hyes]
    · have hno : ¬(strEndsWith (strUpper ticker) ".SZ" = true ∨
          strEndsWith (strUpper ticker) ".SH" = true ∨
          strEndsWith (strUpper ticker) ".BJ" = true ∨
          (pyIsDigit ticker = true ∧ ticker.data.length = 6)) := by tauto
      rw [if_neg hsfx, if_neg hdig, if_neg hno]

/-- Witness for the amended C7 at concrete tickers of each class. -/
theorem detect_market_type_spec_witness :
    detect_market_type "000001" = specMarketType "000001" ∧
    detect_market_type "0700.hk" = specMarketType "0700.hk" ∧
    detect_market_type "AAPL" = specMarketType "AAPL" :=
  ⟨detect_market_type_spec "000001" (by decide),
   detect_market_type_spec "0700.hk" (by decide),
   detect_market_type_spec "AAPL" (by decide)⟩

/-! ## Claim C8: deterministic trade-signal fallback
(`TradeDecisionPhase._generate_trade_signal` /
`_parse_recommendation_from_text`) -/

/-- Python substring test `needle in haystack` on char lists. -/
def containsSub (needle : List Char) : List Char → Bool
  | [] => needle.isEmpty
  | c :: t => needle.isPrefixOf (c :: t) || containsSub needle t

/-- Python `kw in text`. -/
def pyInStr (needle haystack : String) : Bool := containsSub needle.data haystack.data

/-- The buy keyword list of `_parse_recommendation_from_text`. -/
def buyKeywords : List String :=
  ["买入", "增持", "看多", "建议买入", "buy", "bullish", "看涨"]

/-- The sell keyword list of `_parse_recommendation_from_text`. -/
def sellKeywords : List String :=
  ["卖出", "减持", "看空", "建议卖出", "sell", "bearish", "看跌"]

/-- The hold keyword list of `_parse_recommendation_from_text`. -/
def holdKeywords : List String :=
  ["持有", "观望", "hold", "neutral", "中性"]

/-- Embedding of `sum(1 for kw in kws if kw in text_lower)`. -/
def keywordScore (kws : List String) (text_lower : String) : ℕ :=
  kws.countP (fun kw => pyInStr kw text_lower)

/-- The buy score of a text (computed over its lowercased form). -/
def buyScore (text : String) : ℕ := keywordScore buyKeywords (strLower text)

/-- The sell score of a text. -/
def sellScore (text : String) : ℕ := keywordScore sellKeywords (strLower text)

/-- The hold score of a text. -/
def holdScore (text : String) : ℕ := keywordScore holdKeywords (strLower text)

/-- Embedding of `TradeDecisionPhase._parse_recommendation_from_text`: keyword scoring
with majority rule; ties and no-majority default to `("hold", 0.5)`.
Confidences are exact rationals in place of Python floats. -/
def parseRecommendationFromText (text : String) : String × ℚ :=
  if buyScore text > sellScore text ∧ buyScore text > holdScore text then
    ("buy", min ((1 : ℚ)/2 + (buyScore text : ℚ) * ((1 : ℚ)/10)) ((9 : ℚ)/10))
  else if sellScore text > buyScore text ∧ sellScore text > holdScore text then
    ("sell", min ((1 : ℚ)/2 + (sellScore text : ℚ) * ((1 : ℚ)/10)) ((9 : ℚ)/10))
  else
    ("hold", (1 : ℚ)/2)

/-- The `action_map` dict of `_generate_trade_signal`. -/
def actionMap : PDict String :=
  pofList [("buy", "BUY"), ("sell", "SELL"), ("hold", "HOLD")]

/-- A trade signal (the dict built by `_generate_trade_signal`; the
always-`None` price fields are omitted). -/
structure TradeSignal : Type where
  ticker : Option PyVal
  action : String
  position_size : ℚ
  confidence : ℚ
  rationale : String

/-- The string branch of `TradeDecisionPhase._generate_trade_signal`: the
deterministic fallback applied to an investment-plan text. -/
def generateTradeSignalFromText (ticker : Option PyVal) (investment_plan : String) :
    TradeSignal :=
  let rc := parseRecommendationFromText investment_plan
  let rationale := String.mk (investment_plan.data.take 500)
  let action := pGetD actionMap (strLower rc.1) "HOLD"
  let position_size := if action = "HOLD" then (0 : ℚ) else min rc.2 1
  { ticker := ticker, action := action, position_size := position_size,
    confidence := rc.2, rationale := rationale }

/-- Claim C8.  For every investment-plan text, the keyword fallback yields
an action in {BUY, SELL, HOLD}, a position size in [0,1] and a confidence
in [0,1]; whenever neither the buy score nor the sell score strictly
exceeds both other scores, the result is HOLD with confidence 0.5. -/
theorem trade_signal_fallback_sound (ticker : Option PyVal) (text : String) :
    ((generateTradeSignalFromText ticker text).action = "BUY" ∨
     (generateTradeSignalFromText ticker text).action = "SELL" ∨
     (generateTradeSignalFromText ticker text).action = "HOLD") ∧
    (0 ≤ (generateTradeSignalFromText ticker text).position_size ∧
     (generateTradeSignalFromText ticker text).position_size ≤ 1) ∧
    (0 ≤ (generateTradeSignalFromText ticker text).confidence ∧
     (generateTradeSignalFromText ticker text).confidence ≤ 1) ∧
    ((¬(buyScore text > sellScore text ∧ buyScore text > holdScore text) ∧
      ¬(sellScore text > buyScore text ∧ sellScore text > holdScore text)) →
      (generateTradeSignalFromText ticker text).action = "HOLD" ∧
      (generateTradeSignalFromText ticker text).confidence = (1 : ℚ)/2) := by
  unfold generateTradeSignalFromText parseRecommendationFromText
  by_cases hb : buyScore text > sellScore text ∧ buyScore text > holdScore text
  · rw [if_pos hb]
    have hconf0 : (0 : ℚ) ≤ min ((1 : ℚ)/2 + (buyScore text : ℚ) * ((1 : ℚ)/10)) ((9 : ℚ)/10) := by
      apply le_min
      · positivity
      · norm_num
    have hconf1 : min ((1 : ℚ)/2 + (buyScore text : ℚ) * ((1 : ℚ)/10)) ((9 : ℚ)/10) ≤ 1 :=
      le_trans (min_le_right _ _) (by norm_num)
    refine ⟨Or.inl rfl, ⟨?_, ?_⟩, ⟨hconf0, hconf1⟩, fun hc => absurd hb hc.1⟩
    · show (0 : ℚ) ≤ if ("BUY" : String) = "HOLD" then 0 else min _ 1
      rw [if_neg (by decide)]
      exact le_min hconf0 zero_le_one
    · show (if ("BUY" : String) = "HOLD" then (0 : ℚ) else min _ 1) ≤ 1
      rw [if_neg (by decide)]
      exact min_le_right _ _
  · rw [if_neg hb]
    by_cases hs : sellScore text > buyScore text ∧ sellScore text > holdScore text
    · rw [if_pos hs]
      have hconf0 : (0 : ℚ) ≤ min ((1 : ℚ)/2 + (sellScore text : ℚ) * ((1 : ℚ)/10)) ((9 : ℚ)/10) := by
        apply le_min
        · positivity
        · norm_num
      have hconf1 : min ((1 : ℚ)/2 + (sellScore text : ℚ) * ((1 : ℚ)/10)) ((9 : ℚ)/10) ≤ 1 :=
        le_trans (min_le_right _ _) (by norm_num)
      refine ⟨Or.inr (Or.inl rfl), ⟨?_, ?_⟩, ⟨hconf0, hconf1⟩, fun hc => absurd hs hc.2⟩
      · show (0 : ℚ) ≤ if ("SELL" : String) = "HOLD" then 0 else min _ 1
        rw [if_neg (by decide)]
        exact le_min hconf0 zero_le_one
      · show (if ("SELL" : String) = "HOLD" then (0 : ℚ) else min _ 1) ≤ 1
        rw [if_neg (by decide)]
        exact min_le_right _ _
    · rw [if_neg hs]
      refine ⟨Or.inr (Or.inr rfl), ⟨?_, ?_⟩, ⟨by norm_num, by norm_num⟩, fun _ => ⟨rfl, rfl⟩⟩
      · show (0 : ℚ) ≤ if ("HOLD" : String) = "HOLD" then 0 else min ((1 : ℚ)/2) 1
        rw [if_pos rfl]
      · show (if ("HOLD" : String) = "HOLD" then (0 : ℚ) else min ((1 : ℚ)/2) 1) ≤ 1
        rw [if_pos rfl]
        norm_num

/-- Witness for C8 at the empty text (all scores zero: the no-majority
default). -/
theorem trade_signal_fallback_sound_witness :
    (generateTradeSignalFromText none "").action = "HOLD" ∧
    (generateTradeSignalFromText none "").confidence = (1 : ℚ)/2 :=
  (trade_signal_fallback_sound none "").2.2.2 (by decide)

/-! ## `stock_analysis_engine.py`: StockAnalysisEngine -/

/-- Embedding of the `AnalysisPhase` enum. -/
inductive AnalysisPhase : Type where
  | DATA_COLLECTION
  | ANALYSTS
  | RESEARCH_DEBATE
  | TRADE_DECISION
  | RISK_ASSESSMENT
deriving DecidableEq

/-- The string value of each phase enum member. -/
def AnalysisPhase.value : AnalysisPhase → String
  | .DATA_COLLECTION => "data_collection"
  | .ANALYSTS => "analysts"
  | .RESEARCH_DEBATE => "research_debate"
  | .TRADE_DECISION => "trade_decision"
  | .RISK_ASSESSMENT => "risk_assessment"

/-- Embedding of `PhaseResult` (wall-clock `duration_seconds` not modelled). -/
structure PhaseResult : Type where
  phase : AnalysisPhase
  success : Bool
  error : Option String := none
  outputs : PDict PyVal := pempty

/-- Embedding of `AnalysisResult` (wall-clock `total_duration_seconds` not modelled). -/
structure AnalysisResult : Type where
  ticker : String
  trade_date : String
  success : Bool
  final_decision : Option PyVal := none
  phase_results : List PhaseResult := []
  context : AnalysisContext
  error : Option String := none

/-- Behaviour of the phase executor method `execute(context, data_manager)`:
the context after its in-place mutations, together with either the
returned outputs dict or the message of the raised exception. -/
def PhaseImpl : Type := AnalysisContext → AnalysisContext × Except String (PDict PyVal)

/-- Embedding of `StockAnalysisEngine._execute_phase`: run the executor inside
`try/except`, converting an exception into a failed `PhaseResult` with
`error = str(e)` — the exception never propagates. -/
def executePhase (phase : AnalysisPhase) (impl : PhaseImpl) (ctx : AnalysisContext) :
    AnalysisContext × PhaseResult :=
  match impl ctx with
  | (ctx', Except.ok outs) =>
      (ctx', { phase := phase, success := true, outputs := outs })
  | (ctx', Except.error e) =>
      (ctx', { phase := phase, success := false, error := some e })

/-- The phase loop of `StockAnalysisEngine.analyze`: append one
`PhaseResult` per attempted phase and stop at the first failure,
recording the engine-level error message. -/
def runPhases : AnalysisContext → List (AnalysisPhase × PhaseImpl) →
    AnalysisContext × List PhaseResult × Option String
  | ctx, [] => (ctx, [], none)
  | ctx, (ph, impl) :: rest =>
      let r := executePhase ph impl ctx
      if r.2.success then
        let r2 := runPhases r.1 rest
        (r2.1, r.2 :: r2.2.1, r2.2.2)
      else
        (r.1, [r.2],
          some ("阶段 " ++ ph.value ++ " 执行失败: " ++ r.2.error.getD ""))

/-- Embedding of `StockAnalysisEngine._create_context`: seed the Context layer
(`company_name` only under Python truthiness), then the extra kwargs. -/
def createContext (ticker trade_date : String) (company_name : Option String)
    (market_type : String) (extra : List (String × PyVal)) : AnalysisContext :=
  let ctx := AnalysisContext.set {} .CONTEXT "ticker" (PyVal.vStr ticker) (some "init")
  let ctx := ctx.set .CONTEXT "trade_date" (PyVal.vStr trade_date) (some "init")
  let ctx := ctx.set .CONTEXT "market_type" (PyVal.vStr market_type) (some "init")
  let ctx := match company_name with
    | some cn =>
        if cn = "" then ctx
        else ctx.set .CONTEXT "company_name" (PyVal.vStr cn) (some "init")
    | none => ctx
  extra.foldl (fun c kv => c.set .CONTEXT kv.1 kv.2 (some "init")) ctx

/-- The fixed phase sequence of `StockAnalysisEngine.analyze`. -/
def enginePhases : List AnalysisPhase :=
  [.DATA_COLLECTION, .ANALYSTS, .RESEARCH_DEBATE, .TRADE_DECISION, .RISK_ASSESSMENT]

/-- Embedding of `StockAnalysisEngine.analyze`, parameterised by the behaviour of each
phase executor. -/
def analyze (impls : AnalysisPhase → PhaseImpl) (ticker trade_date : String)
    (company_name : Option String) (market_type : String)
    (extra : List (String × PyVal)) : AnalysisResult :=
  let ctx0 := createContext ticker trade_date company_name market_type extra
  let r := runPhases ctx0 (enginePhases.map (fun ph => (ph, impls ph)))
  { ticker := ticker, trade_date := trade_date,
    success := r.2.2.isNone,
    final_decision := if r.2.2.isNone then r.1.get .DECISIONS "final_decision" else none,
    phase_results := r.2.1,
    context := r.1,
    error := r.2.2 }

/-! ## Claim C2: phase exceptions are contained and halt the sequence -/

/-- Claim C2.  A phase exception never propagates: `_execute_phase` turns it
into a `PhaseResult{success := false, error := str(e)}`.  In a 5-phase run
whose first two phases succeed and whose third (ResearchDebate) raises
`e`, exactly 3 phase results are recorded (phases 4–5 never run), the
third is the failed one, the overall result is marked failed, and the
result context is the threaded context with all committed writes. -/
theorem phase_failure_halts (impls : AnalysisPhase → PhaseImpl)
    (ticker trade_date : String) (c1 c2 c3 : AnalysisContext)
    (o1 o2 : PDict PyVal) (e : String)
    (h1 : impls .DATA_COLLECTION (createContext ticker trade_date none "cn" []) =
      (c1, Except.ok o1))
    (h2 : impls .ANALYSTS c1 = (c2, Except.ok o2))
    (h3 : impls .RESEARCH_DEBATE c2 = (c3, Except.error e)) :
    (∀ (ph : AnalysisPhase) (impl : PhaseImpl) (ctx ctx' : AnalysisContext) (msg : String),
      impl ctx = (ctx', Except.error msg) →
      executePhase ph impl ctx =
        (ctx', { phase := ph, success := false, error := some msg, outputs := pempty })) ∧
    (analyze impls ticker trade_date none "cn" []).phase_results.length = 3 ∧
    (analyze impls ticker trade_date none "cn" []).phase_results.map
      (fun pr => pr.success) = [true, true, false] ∧
    (analyze impls ticker trade_date none "cn" []).phase_results.getLast? =
      some { phase := .RESEARCH_DEBATE, success := false, error := some e,
             outputs := pempty } ∧
    (analyze impls ticker trade_date none "cn" []).success = false ∧
    (analyze impls ticker trade_date none "cn" []).context = c3 ∧
    (analyze impls ticker trade_date none "cn" []).error =
      some ("阶段 research_debate 执行失败: " ++ e) := by
  constructor
  · intro ph impl ctx ctx' msg hmsg
    unfold executePhase
    rw [hmsg]
  · have hrun : runPhases (createContext ticker trade_date none "cn" [])
        (enginePhases.map (fun ph => (ph, impls ph))) =
        (c3,
         [{ phase := .DATA_COLLECTION, success := true, outputs := o1 },
          { phase := .ANALYSTS, success := true, outputs := o2 },
          { phase := .RESEARCH_DEBATE, success := false, error := some e,
            outputs := pempty }],
         some ("阶段 research_debate 执行失败: " ++ e)) := by
      simp only [enginePhases, List.map_cons, List.map_nil]
      rw [runPhases]
      simp only [executePhase, h1]
      rw [runPhases]
      simp only [executePhase, h2]
      rw [runPhases]
      simp only [executePhase, h3]
      rfl
    simp [analyze, hrun]

/-- Phase behaviours for the C2 witness: ResearchDebate raises `"boom"`,
every other phase returns an empty outputs dict. -/
def implsC2 : AnalysisPhase → PhaseImpl := fun ph =>
  match ph with
  | .RESEARCH_DEBATE => fun ctx => (ctx, Except.error "boom")
  | _ => fun ctx => (ctx, Except.ok pempty)

/-- The initial context of the C2 witness run. -/
def ctxC2 : AnalysisContext := createContext "000001" "2024-01-15" none "cn" []

/-- Witness for C2 at a concrete failing run. -/
theorem phase_failure_halts_witness :
    (∀ (ph : AnalysisPhase) (impl : PhaseImpl) (ctx ctx' : AnalysisContext) (msg : String),
      impl ctx = (ctx', Except.error msg) →
      executePhase ph impl ctx =
        (ctx', { phase := ph, success := false, error := some msg, outputs := pempty })) ∧
    (analyze implsC2 "000001" "2024-01-15" none "cn" []).phase_results.length = 3 ∧
    (analyze implsC2 "000001" "2024-01-15" none "cn" []).phase_results.map
      (fun pr => pr.success) = [true, true, false] ∧
    (analyze implsC2 "000001" "2024-01-15" none "cn" []).phase_results.getLast? =
      some { phase := .RESEARCH_DEBATE, success := false, error := some "boom",
             outputs := pempty } ∧
    (analyze implsC2 "000001" "2024-01-15" none "cn" []).success = false ∧
    (analyze implsC2 "000001" "2024-01-15" none "cn" []).context = ctxC2 ∧
    (analyze implsC2 "000001" "2024-01-15" none "cn" []).error =
      some ("阶段 research_debate 执行失败: " ++ "boom") :=
  phase_failure_halts implsC2 "000001" "2024-01-15" ctxC2 ctxC2 ctxC2 pempty pempty
    "boom" rfl rfl rfl
